import Mathlib

/-!
Shallow embedding of `src/dca_strategy.py`, a dollar-cost-averaging (DCA)
strategy comparator over an hourly Bitcoin price table.

Modelling conventions:
* A `Row` of the Price Series carries its timestamp and the `Open` price.
  Timestamps are counted in whole hours from an epoch aligned to a Monday
  00:00, so `hourOfDay` is `ts % 24` and `dayOfWeek` (pandas convention,
  Monday = 0) is `ts / 24 % 7`, matching `index.hour` and `index.dayofweek`.
* Prices and money amounts are rationals.  IEEE-754 division is modelled by
  `fdiv`, whose `none` result stands for the non-finite float (NaN / ±inf)
  that numpy produces when the denominator is zero; every other float
  operation performed by the program stays within exact rational arithmetic.
* A pandas DataFrame column is a `List` obtained with `map`; `.sum()` is
  `List.sum`; boolean-mask selection is `List.filter`.
-/

/-- One row of the Price Series: the `Timestamp` index value (hours since a
Monday-00:00 epoch) and the `Open` price column. -/
structure Row where
  ts : ℕ
  Open : ℚ
deriving DecidableEq, Repr

/-- `index.hour` for an hourly timestamp. -/
def hourOfDay (t : ℕ) : ℕ := t % 24

/-- `index.dayofweek` (Monday = 0) for an hourly timestamp. -/
def dayOfWeek (t : ℕ) : ℕ := t / 24 % 7

/-- Float division as numpy performs it on the aggregate sums: a zero
denominator yields a non-finite value (`none`); otherwise the exact
quotient. -/
def fdiv (a b : ℚ) : Option ℚ := if b = 0 then none else some (a / b)

/-- `purchases['cost'] = amount` followed by `purchases['cost'].sum()`. -/
def cost_sum (purchases : List Row) (amount : ℚ) : ℚ :=
  (purchases.map (fun _ => amount)).sum

/-- `purchases['btc_bought'] = amount / purchases['Open']` followed by
`purchases['btc_bought'].sum()`. -/
def btc_bought_sum (purchases : List Row) (amount : ℚ) : ℚ :=
  (purchases.map (fun r => amount / r.Open)).sum

/-- `avg_price = purchases['cost'].sum() / purchases['btc_bought'].sum()`,
the aggregation shared verbatim by all three simulators. -/
def simAvg (purchases : List Row) (amount : ℚ) : Option ℚ :=
  fdiv (cost_sum purchases amount) (btc_bought_sum purchases amount)

/-- Helper for `resampleFirst`: keeps the first row seen for each timestamp
bucket, accumulating the buckets already emitted. -/
def resampleFirstAux : List ℕ → List Row → List Row
  | _, [] => []
  | seen, r :: rs =>
    if r.ts ∈ seen then resampleFirstAux seen rs
    else r :: resampleFirstAux (r.ts :: seen) rs

/-- `data.resample('H').first().dropna()`: with hour-granular timestamps the
hour bucket of a row is its timestamp, so this keeps the first row of every
occupied hour bucket (empty buckets produce all-NaN rows that `dropna`
removes, hence no row at all here). -/
def resampleFirst (data : List Row) : List Row := resampleFirstAux [] data

/-- The boolean mask `data.index.hour == hour` of `simulate_daily_dca`. -/
def dailyPred (hour : ℕ) (r : Row) : Bool := hourOfDay r.ts == hour

/-- The boolean mask
`(data.index.dayofweek == weekday) & (data.index.hour == hour)` of
`simulate_weekly_dca`. -/
def weeklyPred (weekday hour : ℕ) (r : Row) : Bool :=
  (dayOfWeek r.ts == weekday) && (hourOfDay r.ts == hour)

/-- `simulate_hourly_dca(data, amount)`: returns the purchases table and the
aggregate average price. -/
def simulate_hourly_dca (data : List Row) (amount : ℚ) : List Row × Option ℚ :=
  let purchases := resampleFirst data
  (purchases, simAvg purchases amount)

/-- `simulate_daily_dca(data, hour, amount)`. -/
def simulate_daily_dca (data : List Row) (hour : ℕ) (amount : ℚ) :
    List Row × Option ℚ :=
  let purchases := data.filter (dailyPred hour)
  (purchases, simAvg purchases amount)

/-- `simulate_weekly_dca(data, weekday, hour, amount)`. -/
def simulate_weekly_dca (data : List Row) (weekday hour : ℕ) (amount : ℚ) :
    List Row × Option ℚ :=
  let purchases := data.filter (weeklyPred weekday hour)
  (purchases, simAvg purchases amount)

/-- `"Monday Tuesday Wednesday Thursday Friday Saturday Sunday".split()`. -/
def day_order : List String :=
  ["Monday", "Tuesday", "Wednesday", "Thursday", "Friday", "Saturday", "Sunday"]

/-- One record of the comparator's results list: the `Strategy` label and the
`Avg_Price` value. -/
structure StratResult where
  Strategy : String
  Avg_Price : Option ℚ
deriving DecidableEq, Repr

/-- The record appended by `main` for one weekly strategy:
`{'Strategy': f'Weekly {day name} {hour}:00', 'Avg_Price': ...}`. -/
def weeklyEntry (data : List Row) (day hour : ℕ) : StratResult :=
  { Strategy := "Weekly " ++ day_order.getD day "" ++ " " ++ toString hour ++ ":00",
    Avg_Price := (simulate_weekly_dca data day hour 100).2 }

/-- The record appended by `main` for one daily strategy:
`{'Strategy': f'Daily {hour}:00', 'Avg_Price': ...}`. -/
def dailyEntry (data : List Row) (hour : ℕ) : StratResult :=
  { Strategy := "Daily " ++ toString hour ++ ":00",
    Avg_Price := (simulate_daily_dca data hour 100).2 }

/-- The record appended by `main` for the hourly strategy. -/
def hourlyEntry (data : List Row) : StratResult :=
  { Strategy := "Hourly", Avg_Price := (simulate_hourly_dca data 100).2 }

/-- The `results` list built by `main`: 7 × 24 weekly strategies, then 24
daily strategies, then the hourly strategy, all with `amount = 100`. -/
def mainResults (data : List Row) : List StratResult :=
  ((List.range 7).flatMap fun day => (List.range 24).map (weeklyEntry data day))
    ++ (List.range 24).map (dailyEntry data)
    ++ [hourlyEntry data]

/-- Comparison used by `sort_values(by='Avg_Price')`: ascending on the
numeric values with every NaN placed last (`na_position='last'`). -/
def naLeB : Option ℚ → Option ℚ → Bool
  | some x, some y => decide (x ≤ y)
  | some _, none => true
  | none, some _ => false
  | none, none => true

/-- The sort relation on result records induced by `naLeB` on `Avg_Price`. -/
def avgLe (a b : StratResult) : Prop := naLeB a.Avg_Price b.Avg_Price = true

instance : DecidableRel avgLe := fun _ _ => inferInstanceAs (Decidable (_ = true))

instance : IsTotal StratResult avgLe where
  total a b := by
    cases ha : a.Avg_Price <;> cases hb : b.Avg_Price <;>
      simp [avgLe, naLeB, ha, hb]
    exact le_total _ _

instance : IsTrans StratResult avgLe where
  trans a b c := by
    cases ha : a.Avg_Price <;> cases hb : b.Avg_Price <;> cases hc : c.Avg_Price <;>
      simp [avgLe, naLeB, ha, hb, hc]
    exact fun h h' => le_trans h h'

/-- `results_df.sort_values(by='Avg_Price')`: ascending on `Avg_Price`,
NaN entries last. -/
def sort_values (rs : List StratResult) : List StratResult :=
  List.insertionSort avgLe rs

/-- `results_df = pd.DataFrame(results).sort_values(by='Avg_Price')`. -/
def results_df (data : List Row) : List StratResult :=
  sort_values (mainResults data)

/-- Minimum of a list of rationals (`none` on the empty list). -/
def listMinQ : List ℚ → Option ℚ
  | [] => none
  | x :: xs =>
    some (match listMinQ xs with
          | none => x
          | some m => min x m)

/-- `series.min()` for a float column: NaN values are skipped, and the
result is itself NaN (`none`) when no finite value remains. -/
def seriesMin (xs : List (Option ℚ)) : Option ℚ := listMinQ (xs.filterMap id)

/-- One entry of the `Relative_Deviation` column:
`(avg - best) / best * 100`, non-finite (`none`) whenever either operand is
non-finite or the division itself is by zero. -/
def relDev (avg best : Option ℚ) : Option ℚ :=
  match avg, best with
  | some x, some b => if b = 0 then none else some ((x - b) / b * 100)
  | _, _ => none

/-- The ranked comparison table of `main`: the sorted results with the
`Relative_Deviation` column
`(results_df['Avg_Price'] - min) / min * 100` attached. -/
def rankedTable (data : List Row) : List (StratResult × Option ℚ) :=
  let df := results_df data
  let best := seriesMin (df.map (fun r => r.Avg_Price))
  df.map (fun r => (r, relDev r.Avg_Price best))

/-- `filtered_data = data.loc[start_date:end_date]`: label slicing on the
sorted datetime index keeps exactly the rows whose timestamp lies between
the two bounds, both ends included. -/
def filtered_data (data : List Row) (start_date end_date : ℕ) : List Row :=
  data.filter (fun r => decide (start_date ≤ r.ts) && decide (r.ts ≤ end_date))

/-- `s.startswith(p)` on Python strings, expressed over the character
lists. -/
def strStartsWith (s p : String) : Bool := p.data.isPrefixOf s.data

/-- `visualize_bar_chart(results)`: the data the chart draws — the first 30
rows of its input, each with a deviation recomputed against the minimum
`Avg_Price` of those 30 rows. -/
def visualize_bar_chart (results : List StratResult) :
    List (StratResult × Option ℚ) :=
  let top_30 := results.take 30
  let best_price := seriesMin (top_30.map (fun r => r.Avg_Price))
  top_30.map (fun r => (r, relDev r.Avg_Price best_price))

/-- `visualize_filtered_bar_chart(results)`: drops every row whose label
starts with `'Weekly'`, then draws the ordinary bar chart of the rest. -/
def visualize_filtered_bar_chart (results : List StratResult) :
    List (StratResult × Option ℚ) :=
  visualize_bar_chart (results.filter (fun r => !(strStartsWith r.Strategy "Weekly")))

/-- A purchases row after the two column assignments
`purchases['btc_bought'] = amount / purchases['Open']` and
`purchases['cost'] = amount`. -/
structure PRow where
  ts : ℕ
  Open : ℚ
  btc_bought : ℚ
  cost : ℚ
deriving DecidableEq, Repr

/-- The two column assignments performed on the purchases frame. -/
def addColumns (purchases : List Row) (amount : ℚ) : List PRow :=
  purchases.map (fun r =>
    { ts := r.ts, Open := r.Open, btc_bought := amount / r.Open, cost := amount })

/-- `simulate_hourly_dca` with the table lifecycle made explicit: the first
component is the `data` frame as observed after the call.  The column
assignments target the fresh frame returned by `resample('H').first()`, so
the input frame is threaded through untouched. -/
def simulate_hourly_dca_frames (data : List Row) (amount : ℚ) :
    List Row × List PRow × Option ℚ :=
  let purchases := addColumns (resampleFirst data) amount
  (data, purchases,
   fdiv ((purchases.map (fun p => p.cost)).sum)
        ((purchases.map (fun p => p.btc_bought)).sum))

/-- `simulate_daily_dca` with the table lifecycle made explicit: the mask
selection is followed by `.copy()`, so the column assignments land on an
independent frame and the input frame is returned unchanged. -/
def simulate_daily_dca_frames (data : List Row) (hour : ℕ) (amount : ℚ) :
    List Row × List PRow × Option ℚ :=
  let copied := data.filter (dailyPred hour)
  let purchases := addColumns copied amount
  (data, purchases,
   fdiv ((purchases.map (fun p => p.cost)).sum)
        ((purchases.map (fun p => p.btc_bought)).sum))

/-- `simulate_weekly_dca` with the table lifecycle made explicit, as in
`simulate_daily_dca_frames`. -/
def simulate_weekly_dca_frames (data : List Row) (weekday hour : ℕ) (amount : ℚ) :
    List Row × List PRow × Option ℚ :=
  let copied := data.filter (weeklyPred weekday hour)
  let purchases := addColumns copied amount
  (data, purchases,
   fdiv ((purchases.map (fun p => p.cost)).sum)
        ((purchases.map (fun p => p.btc_bought)).sum))

/-- Zero-padded two-digit hour text, as the spec's `HH:00` format reads. -/
def hh2 (h : ℕ) : String := (if h < 10 then "0" else "") ++ toString h

/-- The label format the spec claims: weekday name / `Daily` / `Hourly`
combined with a zero-padded `HH:00` hour. -/
def claimedLabelFormat (s : String) : Prop :=
  s = "Hourly"
    ∨ (∃ h ∈ List.range 24, s = "Daily " ++ hh2 h ++ ":00")
    ∨ (∃ d ∈ List.range 7, ∃ h ∈ List.range 24,
        s = "Weekly " ++ day_order.getD d "" ++ " " ++ hh2 h ++ ":00")

/-- The label format the code produces: weekday name / `Daily` / `Hourly`
combined with the unpadded decimal hour and `:00`. -/
def actualLabelFormat (s : String) : Prop :=
  s = "Hourly"
    ∨ (∃ h ∈ List.range 24, s = "Daily " ++ toString h ++ ":00")
    ∨ (∃ d ∈ List.range 7, ∃ h ∈ List.range 24,
        s = "Weekly " ++ day_order.getD d "" ++ " " ++ toString h ++ ":00")

/-- Three-row fixture of the spec's §8: prices 10, 20, 30 observed at hour
14 of three consecutive days. -/
def fixture3 : List Row := [⟨14, 10⟩, ⟨38, 20⟩, ⟨62, 30⟩]

/-- The spec's end-to-end fixture: a 48-hour series with constant price 100,
starting at a Monday 00:00. -/
def table48 : List Row := (List.range 48).map (fun t => { ts := t, Open := 100 })

/-! ### Aggregation lemmas -/

theorem cost_sum_eq (ps : List Row) (A : ℚ) : cost_sum ps A = ps.length * A := by
  simp [cost_sum, List.map_const', List.sum_replicate, nsmul_eq_mul]

theorem btc_bought_sum_eq (ps : List Row) (A : ℚ) :
    btc_bought_sum ps A = A * (ps.map (fun r => 1 / r.Open)).sum := by
  rw [btc_bought_sum, ← List.sum_map_mul_left]
  congr 1
  refine List.map_congr_left (fun r _ => ?_)
  rw [one_div, div_eq_mul_inv]

theorem invsum_pos (ps : List Row) (hne : ps ≠ [])
    (hpos : ∀ r ∈ ps, 0 < r.Open) : 0 < (ps.map (fun r => 1 / r.Open)).sum := by
  refine List.sum_pos _ ?_ ?_
  · intro x hx
    rcases List.mem_map.mp hx with ⟨r, hr, rfl⟩
    exact one_div_pos.mpr (hpos r hr)
  · simpa using hne

theorem simAvg_nil (A : ℚ) : simAvg [] A = none := by
  simp [simAvg, cost_sum, btc_bought_sum, fdiv]

theorem simAvg_closed_form (ps : List Row) (A : ℚ) (hA : 0 < A) (hne : ps ≠ [])
    (hpos : ∀ r ∈ ps, 0 < r.Open) :
    simAvg ps A = some ((ps.length : ℚ) / (ps.map (fun r => 1 / r.Open)).sum) := by
  have hS := invsum_pos ps hne hpos
  rw [simAvg, cost_sum_eq, btc_bought_sum_eq, fdiv,
    if_neg (mul_ne_zero hA.ne' hS.ne')]
  rw [mul_comm (ps.length : ℚ) A, mul_div_mul_left _ _ hA.ne']

theorem simAvg_isSome (ps : List Row) (A : ℚ) (hA : 0 < A) (hne : ps ≠ [])
    (hpos : ∀ r ∈ ps, 0 < r.Open) : ∃ v, simAvg ps A = some v :=
  ⟨_, simAvg_closed_form ps A hA hne hpos⟩

theorem simAvg_some_ne_zero (ps : List Row) (A v : ℚ) (hA : A ≠ 0)
    (h : simAvg ps A = some v) : v ≠ 0 := by
  rw [simAvg, fdiv] at h
  by_cases hb : btc_bought_sum ps A = 0
  · rw [if_pos hb] at h
    exact absurd h (by simp)
  · rw [if_neg hb] at h
    have hv : cost_sum ps A / btc_bought_sum ps A = v := by
      exact Option.some_injective _ h
    cases ps with
    | nil => exact absurd (by simp [btc_bought_sum]) hb
    | cons a t =>
      have hc : cost_sum (a :: t) A ≠ 0 := by
        rw [cost_sum_eq]
        exact mul_ne_zero (Nat.cast_ne_zero.mpr (by simp)) hA
      rw [← hv]
      exact div_ne_zero hc hb

theorem simAvg_const_price (ps : List Row) (A c : ℚ) (hA : 0 < A) (hc : 0 < c)
    (hall : ∀ r ∈ ps, r.Open = c) :
    simAvg ps A = some c ∨ simAvg ps A = none := by
  cases hps : ps with
  | nil => exact Or.inr (simAvg_nil A)
  | cons a t =>
    subst hps
    left
    have hpos : ∀ r ∈ a :: t, 0 < r.Open := fun r hr => (hall r hr) ▸ hc
    rw [simAvg_closed_form _ A hA (by simp) hpos]
    have hmap : ((a :: t).map (fun r => 1 / r.Open)) =
        (a :: t).map (fun _ => 1 / c) :=
      List.map_congr_left (fun r hr => by rw [hall r hr])
    rw [hmap, List.map_const', List.sum_replicate, nsmul_eq_mul]
    congr 1
    have hn : ((a :: t).length : ℚ) ≠ 0 := Nat.cast_ne_zero.mpr (by simp)
    field_simp

/-! ### Minimum and deviation lemmas -/

theorem listMinQ_eq_none_iff (xs : List ℚ) : listMinQ xs = none ↔ xs = [] := by
  cases xs <;> simp [listMinQ]

theorem listMinQ_isSome (xs : List ℚ) (h : xs ≠ []) : ∃ m, listMinQ xs = some m := by
  cases xs with
  | nil => exact absurd rfl h
  | cons a t => exact ⟨_, rfl⟩

theorem listMinQ_mem (xs : List ℚ) (m : ℚ) (h : listMinQ xs = some m) : m ∈ xs := by
  induction xs generalizing m with
  | nil => simp [listMinQ] at h
  | cons a t ih =>
    rw [listMinQ] at h
    cases ht : listMinQ t with
    | none =>
      rw [ht] at h
      simp at h
      simp [← h]
    | some mt =>
      rw [ht] at h
      simp at h
      rcases min_cases a mt with ⟨heq, _⟩ | ⟨heq, _⟩
      · rw [heq] at h
        simp [← h]
      · rw [heq] at h
        exact List.mem_cons_of_mem a (ih m (h ▸ ht))

theorem listMinQ_le (xs : List ℚ) (m : ℚ) (h : listMinQ xs = some m) :
    ∀ y ∈ xs, m ≤ y := by
  induction xs generalizing m with
  | nil => simp [listMinQ] at h
  | cons a t ih =>
    rw [listMinQ] at h
    intro y hy
    cases ht : listMinQ t with
    | none =>
      rw [ht] at h
      have hte : t = [] := (listMinQ_eq_none_iff t).mp ht
      subst hte
      simp at h hy
      simp [← h, hy]
    | some mt =>
      rw [ht] at h
      simp at h
      rcases List.mem_cons.mp hy with hya | hyt
      · rw [hya, ← h]
        exact min_le_left a mt
      · have hmt : m ≤ mt := by
          rw [← h]
          exact min_le_right a mt
        exact le_trans hmt (ih mt ht y hyt)

theorem listMinQ_perm (xs ys : List ℚ) (h : List.Perm xs ys) :
    listMinQ xs = listMinQ ys := by
  cases hx : listMinQ xs with
  | none =>
    have : xs = [] := (listMinQ_eq_none_iff xs).mp hx
    subst this
    rw [(listMinQ_eq_none_iff ys).mpr h.nil_eq.symm]
  | some m =>
    have hys : ys ≠ [] := by
      intro hnil
      subst hnil
      rw [List.perm_nil.mp h] at hx
      simp [listMinQ] at hx
    rcases listMinQ_isSome ys hys with ⟨m', hy⟩
    rw [hy]
    have h1 : m ≤ m' := listMinQ_le xs m hx m' (h.mem_iff.mpr (listMinQ_mem ys m' hy))
    have h2 : m' ≤ m := listMinQ_le ys m' hy m (h.mem_iff.mp (listMinQ_mem xs m hx))
    rw [le_antisymm h1 h2]

theorem mem_filterMap_id (xs : List (Option ℚ)) (v : ℚ) :
    v ∈ xs.filterMap id ↔ some v ∈ xs := by
  simp [List.mem_filterMap]

theorem seriesMin_isSome (xs : List (Option ℚ)) (v : ℚ) (h : some v ∈ xs) :
    ∃ m, seriesMin xs = some m := by
  refine listMinQ_isSome _ ?_
  intro hnil
  rw [List.eq_nil_iff_forall_not_mem] at hnil
  exact hnil v ((mem_filterMap_id xs v).mpr h)

theorem seriesMin_mem (xs : List (Option ℚ)) (m : ℚ) (h : seriesMin xs = some m) :
    some m ∈ xs :=
  (mem_filterMap_id xs m).mp (listMinQ_mem _ m h)

theorem seriesMin_le (xs : List (Option ℚ)) (m v : ℚ) (h : seriesMin xs = some m)
    (hv : some v ∈ xs) : m ≤ v :=
  listMinQ_le _ m h v ((mem_filterMap_id xs v).mpr hv)

theorem seriesMin_perm (xs ys : List (Option ℚ)) (h : List.Perm xs ys) :
    seriesMin xs = seriesMin ys :=
  listMinQ_perm _ _ (h.filterMap id)

theorem relDev_self (m : ℚ) (hm : m ≠ 0) : relDev (some m) (some m) = some 0 := by
  simp [relDev, hm]

theorem relDev_none_left (best : Option ℚ) : relDev none best = none := by
  cases best <;> simp [relDev]

/-! ### Structure of the comparator's results list -/

theorem mem_mainResults (data : List Row) (r : StratResult) :
    r ∈ mainResults data ↔
      (∃ d < 7, ∃ h < 24, r = weeklyEntry data d h)
        ∨ (∃ h < 24, r = dailyEntry data h)
        ∨ r = hourlyEntry data := by
  simp only [mainResults, List.mem_append, List.mem_flatMap, List.mem_map,
    List.mem_range, List.mem_singleton]
  constructor
  · rintro ((⟨d, hd, h, hh, rfl⟩ | ⟨h, hh, rfl⟩) | rfl)
    · exact Or.inl ⟨d, hd, h, hh, rfl⟩
    · exact Or.inr (Or.inl ⟨h, hh, rfl⟩)
    · exact Or.inr (Or.inr rfl)
  · rintro (⟨d, hd, h, hh, rfl⟩ | ⟨h, hh, rfl⟩ | rfl)
    · exact Or.inl (Or.inl ⟨d, hd, h, hh, rfl⟩)
    · exact Or.inl (Or.inr ⟨h, hh, rfl⟩)
    · exact Or.inr rfl

theorem resampleFirstAux_subset (l : List Row) :
    ∀ seen, ∀ r ∈ resampleFirstAux seen l, r ∈ l := by
  induction l with
  | nil => intro seen r hr; simp [resampleFirstAux] at hr
  | cons a t ih =>
    intro seen r hr
    rw [resampleFirstAux] at hr
    by_cases hmem : a.ts ∈ seen
    · rw [if_pos hmem] at hr
      exact List.mem_cons_of_mem a (ih seen r hr)
    · rw [if_neg hmem] at hr
      rcases List.mem_cons.mp hr with hra | hr'
      · exact hra ▸ List.mem_cons_self a t
      · exact List.mem_cons_of_mem a (ih _ r hr')

theorem resampleFirst_subset (data : List Row) :
    ∀ r ∈ resampleFirst data, r ∈ data :=
  resampleFirstAux_subset data []

theorem resampleFirst_ne_nil (data : List Row) (h : data ≠ []) :
    resampleFirst data ≠ [] := by
  cases data with
  | nil => exact absurd rfl h
  | cons a t =>
    rw [resampleFirst, resampleFirstAux]
    simp

theorem mainResults_avg_shape (data : List Row) (r : StratResult)
    (h : r ∈ mainResults data) :
    ∃ ps : List Row, r.Avg_Price = simAvg ps 100 ∧ ∀ x ∈ ps, x ∈ data := by
  rcases (mem_mainResults data r).mp h with ⟨d, _, hh, _, rfl⟩ | ⟨hh, _, rfl⟩ | rfl
  · exact ⟨data.filter (weeklyPred d hh), rfl,
      fun x hx => List.mem_of_mem_filter hx⟩
  · exact ⟨data.filter (dailyPred hh), rfl,
      fun x hx => List.mem_of_mem_filter hx⟩
  · exact ⟨resampleFirst data, rfl, resampleFirst_subset data⟩

theorem mainResults_avg_ne_zero (data : List Row) (r : StratResult) (v : ℚ)
    (hr : r ∈ mainResults data) (hv : r.Avg_Price = some v) : v ≠ 0 := by
  rcases mainResults_avg_shape data r hr with ⟨ps, hps, _⟩
  exact simAvg_some_ne_zero ps 100 v (by norm_num) (hps ▸ hv)

theorem hourlyEntry_mem (data : List Row) : hourlyEntry data ∈ mainResults data :=
  (mem_mainResults data _).mpr (Or.inr (Or.inr rfl))

theorem dailyEntry_mem (data : List Row) (h : ℕ) (hh : h < 24) :
    dailyEntry data h ∈ mainResults data :=
  (mem_mainResults data _).mpr (Or.inr (Or.inl ⟨h, hh, rfl⟩))

theorem weeklyEntry_mem (data : List Row) (d h : ℕ) (hd : d < 7) (hh : h < 24) :
    weeklyEntry data d h ∈ mainResults data :=
  (mem_mainResults data _).mpr (Or.inl ⟨d, hd, h, hh, rfl⟩)

theorem mainResults_length (data : List Row) : (mainResults data).length = 193 := by
  simp [mainResults, List.length_append, List.length_flatMap, Function.comp_def,
    List.length_map, List.length_range, List.map_const', List.sum_replicate]

theorem results_df_perm (data : List Row) :
    List.Perm (results_df data) (mainResults data) :=
  List.perm_insertionSort avgLe (mainResults data)

theorem results_df_sorted (data : List Row) :
    List.Sorted avgLe (results_df data) :=
  List.sorted_insertionSort avgLe (mainResults data)

theorem mem_results_df (data : List Row) (r : StratResult) :
    r ∈ results_df data ↔ r ∈ mainResults data :=
  (results_df_perm data).mem_iff

/-! ### Label lemmas -/

theorem weekly_label_is_weekly : ∀ d ∈ List.range 7, ∀ h ∈ List.range 24,
    strStartsWith ("Weekly " ++ day_order.getD d "" ++ " " ++ toString h ++ ":00")
      "Weekly" = true := by decide

theorem daily_label_not_weekly : ∀ h ∈ List.range 24,
    strStartsWith ("Daily " ++ toString h ++ ":00") "Weekly" = false := by decide

theorem hourly_label_not_weekly : strStartsWith "Hourly" "Weekly" = false := by decide

theorem mainResults_countP_not_weekly (data : List Row) :
    (mainResults data).countP (fun r => !(strStartsWith r.Strategy "Weekly")) = 25 := by
  rw [mainResults, List.countP_append, List.countP_append]
  have h1 : ((List.range 7).flatMap fun day =>
      (List.range 24).map (weeklyEntry data day)).countP
        (fun r => !(strStartsWith r.Strategy "Weekly")) = 0 := by
    rw [List.countP_eq_zero]
    intro r hr
    rcases List.mem_flatMap.mp hr with ⟨d, hd, hr'⟩
    rcases List.mem_map.mp hr' with ⟨h, hh, rfl⟩
    have hw := weekly_label_is_weekly d hd h hh
    simp only [weeklyEntry] at hw ⊢
    rw [hw]
    decide
  have h2 : ((List.range 24).map (dailyEntry data)).countP
      (fun r => !(strStartsWith r.Strategy "Weekly")) = 24 := by
    have hlen : ((List.range 24).map (dailyEntry data)).length = 24 := by
      rw [List.length_map, List.length_range]
    rw [← hlen]
    refine List.countP_eq_length.mpr ?_
    intro r hr
    rcases List.mem_map.mp hr with ⟨h, hh, rfl⟩
    have hd := daily_label_not_weekly h hh
    simp only [dailyEntry] at hd ⊢
    rw [hd]
    rfl
  have h3 : ([hourlyEntry data]).countP
      (fun r => !(strStartsWith r.Strategy "Weekly")) = 1 := by
    rw [List.countP_cons, List.countP_nil]
    simp only [hourlyEntry]
    simp [hourly_label_not_weekly]
  rw [h1, h2, h3]

theorem simAvg_const_price_some (ps : List Row) (A c : ℚ) (hA : 0 < A)
    (hc : 0 < c) (hne : ps ≠ []) (hall : ∀ r ∈ ps, r.Open = c) :
    simAvg ps A = some c := by
  cases hps : ps with
  | nil => exact absurd hps hne
  | cons a t =>
    subst hps
    have hpos : ∀ r ∈ a :: t, 0 < r.Open := fun r hr => (hall r hr) ▸ hc
    rw [simAvg_closed_form _ A hA (by simp) hpos]
    have hmap : ((a :: t).map (fun r => 1 / r.Open)) =
        (a :: t).map (fun _ => 1 / c) :=
      List.map_congr_left (fun r hr => by rw [hall r hr])
    rw [hmap, List.map_const', List.sum_replicate, nsmul_eq_mul]
    congr 1
    have hn : ((a :: t).length : ℚ) ≠ 0 := Nat.cast_ne_zero.mpr (by simp)
    field_simp

theorem avgLe_refl (a : StratResult) : avgLe a a := by
  cases ha : a.Avg_Price <;> simp [avgLe, naLeB, ha]

/-! ### Claims -/

/-- C1: for every purchase amount `A > 0` and every table on which the
daily (resp. weekly) time-bucket predicate matches a non-empty set of rows
with positive `Open` prices, the simulator's `avg_price` equals the closed
form `n / sum(1 / p_i)` over the `n` matched rows. -/
theorem avg_price_harmonic_closed_form (data : List Row) (weekday hour : ℕ)
    (A : ℚ) (hA : 0 < A) :
    ((simulate_daily_dca data hour A).1 ≠ [] →
      (∀ r ∈ (simulate_daily_dca data hour A).1, 0 < r.Open) →
      (simulate_daily_dca data hour A).2 =
        some (((simulate_daily_dca data hour A).1.length : ℚ) /
          ((simulate_daily_dca data hour A).1.map (fun r => 1 / r.Open)).sum))
    ∧ ((simulate_weekly_dca data weekday hour A).1 ≠ [] →
      (∀ r ∈ (simulate_weekly_dca data weekday hour A).1, 0 < r.Open) →
      (simulate_weekly_dca data weekday hour A).2 =
        some (((simulate_weekly_dca data weekday hour A).1.length : ℚ) /
          ((simulate_weekly_dca data weekday hour A).1.map (fun r => 1 / r.Open)).sum)) :=
  ⟨fun hne hpos => simAvg_closed_form _ A hA hne hpos,
   fun hne hpos => simAvg_closed_form _ A hA hne hpos⟩

/-- C1 witness: on the 3-row fixture with prices 10, 20, 30 the daily
simulator at hour 14 matches all three rows and
`avg_price = 3 / (1/10 + 1/20 + 1/30)`. -/
theorem avg_price_harmonic_closed_form_witness :
    (0 : ℚ) < 100 ∧ (simulate_daily_dca fixture3 14 100).1 ≠ [] ∧
    (∀ r ∈ (simulate_daily_dca fixture3 14 100).1, 0 < r.Open) ∧
    (simulate_daily_dca fixture3 14 100).2 = some (3 / (1/10 + 1/20 + 1/30)) := by
  have h1 : (0 : ℚ) < 100 := by norm_num
  have h2 : (simulate_daily_dca fixture3 14 100).1 ≠ [] := by decide
  have h3 : ∀ r ∈ (simulate_daily_dca fixture3 14 100).1, 0 < r.Open := by decide
  refine ⟨h1, h2, h3, ?_⟩
  rw [(avg_price_harmonic_closed_form fixture3 0 14 100 h1).1 h2 h3]
  norm_num [simulate_daily_dca, fixture3, dailyPred, hourOfDay, List.filter]

/-- C9: the average price returned by the daily and weekly simulators is
independent of the (positive) purchase amount, on any table where the
predicate matches at least one row with positive prices. -/
theorem avg_price_amount_invariant (data : List Row) (weekday hour : ℕ)
    (A B : ℚ) (hA : 0 < A) (hB : 0 < B) :
    ((simulate_daily_dca data hour A).1 ≠ [] →
      (∀ r ∈ (simulate_daily_dca data hour A).1, 0 < r.Open) →
      (simulate_daily_dca data hour A).2 = (simulate_daily_dca data hour B).2)
    ∧ ((simulate_weekly_dca data weekday hour A).1 ≠ [] →
      (∀ r ∈ (simulate_weekly_dca data weekday hour A).1, 0 < r.Open) →
      (simulate_weekly_dca data weekday hour A).2 =
        (simulate_weekly_dca data weekday hour B).2) :=
  ⟨fun hne hpos =>
    (simAvg_closed_form _ A hA hne hpos).trans (simAvg_closed_form _ B hB hne hpos).symm,
   fun hne hpos =>
    (simAvg_closed_form _ A hA hne hpos).trans (simAvg_closed_form _ B hB hne hpos).symm⟩

/-- C9 witness: amounts 100 and 250 give the same average price on the
3-row fixture. -/
theorem avg_price_amount_invariant_witness :
    (0 : ℚ) < 100 ∧ (0 : ℚ) < 250 ∧
    (simulate_daily_dca fixture3 14 100).1 ≠ [] ∧
    (∀ r ∈ (simulate_daily_dca fixture3 14 100).1, 0 < r.Open) ∧
    (simulate_daily_dca fixture3 14 100).2 = (simulate_daily_dca fixture3 14 250).2 :=
  ⟨by norm_num, by norm_num, by decide, by decide,
   (avg_price_amount_invariant fixture3 0 14 100 250 (by norm_num) (by norm_num)).1
     (by decide) (by decide)⟩

/-- C3: a weekly (resp. daily) strategy whose time-bucket predicate matches
zero rows of the table returns — without raising or guarding — an empty
purchases table together with a non-finite (`none`) aggregate average
price, and the caller receives exactly that pair. -/
theorem empty_match_non_finite (data : List Row) (weekday hour : ℕ) (A : ℚ) :
    (data.filter (weeklyPred weekday hour) = [] →
      simulate_weekly_dca data weekday hour A = ([], none))
    ∧ (data.filter (dailyPred hour) = [] →
      simulate_daily_dca data hour A = ([], none)) := by
  constructor
  · intro h
    show (data.filter (weeklyPred weekday hour),
      simAvg (data.filter (weeklyPred weekday hour)) A) = ([], none)
    rw [h, simAvg_nil]
  · intro h
    show (data.filter (dailyPred hour),
      simAvg (data.filter (dailyPred hour)) A) = ([], none)
    rw [h, simAvg_nil]

/-- C3 witness: on the 48-hour fixture (two weekdays of data) the weekly
strategy for Wednesday 00:00 matches no row and yields `([], none)`. -/
theorem empty_match_non_finite_witness :
    table48.filter (weeklyPred 2 0) = [] ∧
    simulate_weekly_dca table48 2 0 100 = ([], none) :=
  ⟨by decide, (empty_match_non_finite table48 2 0 100).1 (by decide)⟩

/-- C4: the driver's date-range filter `data.loc[start_date:end_date]` is
inclusive at both ends: for a valid range, any row whose timestamp equals
`start_date` or `end_date` exactly is kept in the filtered series. -/
theorem date_range_filter_inclusive (data : List Row) (start_date end_date : ℕ)
    (r : Row) (hmem : r ∈ data) (hrange : start_date ≤ end_date)
    (hboundary : r.ts = start_date ∨ r.ts = end_date) :
    r ∈ filtered_data data start_date end_date := by
  refine List.mem_filter.mpr ⟨hmem, ?_⟩
  rcases hboundary with h | h <;> rw [h] <;> simp [hrange]

/-- C4 witness: the fixture row at timestamp 14 survives the filter for the
range [14, 62] although it sits exactly on the lower boundary. -/
theorem date_range_filter_inclusive_witness :
    (⟨14, 10⟩ : Row) ∈ fixture3 ∧ (14 : ℕ) ≤ 62 ∧
    ((⟨14, 10⟩ : Row).ts = 14 ∨ (⟨14, 10⟩ : Row).ts = 62) ∧
    (⟨14, 10⟩ : Row) ∈ filtered_data fixture3 14 62 :=
  ⟨by decide, by decide, Or.inl rfl,
   date_range_filter_inclusive fixture3 14 62 ⟨14, 10⟩ (by decide) (by decide)
     (Or.inl rfl)⟩

/-- C8: no simulator mutates the loaded Price Series.  In the explicit
table-lifecycle model, each simulator hands back the input table unchanged,
its purchases frame is a fresh table derived from the input (the masked
copy, resp. the resampled frame, with the two new columns), and the average
it computes over that fresh frame agrees with the plain simulator. -/
theorem simulators_no_mutation (data : List Row) (weekday hour : ℕ) (A : ℚ) :
    ((simulate_hourly_dca_frames data A).1 = data
      ∧ (simulate_daily_dca_frames data hour A).1 = data
      ∧ (simulate_weekly_dca_frames data weekday hour A).1 = data)
    ∧ ((simulate_hourly_dca_frames data A).2.1.map (fun p => Row.mk p.ts p.Open)
          = resampleFirst data
      ∧ (simulate_daily_dca_frames data hour A).2.1.map (fun p => Row.mk p.ts p.Open)
          = data.filter (dailyPred hour)
      ∧ (simulate_weekly_dca_frames data weekday hour A).2.1.map (fun p => Row.mk p.ts p.Open)
          = data.filter (weeklyPred weekday hour))
    ∧ ((simulate_hourly_dca_frames data A).2.2 = (simulate_hourly_dca data A).2
      ∧ (simulate_daily_dca_frames data hour A).2.2 = (simulate_daily_dca data hour A).2
      ∧ (simulate_weekly_dca_frames data weekday hour A).2.2
          = (simulate_weekly_dca data weekday hour A).2) := by
  refine ⟨⟨rfl, rfl, rfl⟩, ⟨?_, ?_, ?_⟩, ⟨?_, ?_, ?_⟩⟩
  all_goals
    simp [simulate_hourly_dca_frames, simulate_daily_dca_frames,
      simulate_weekly_dca_frames, simulate_hourly_dca, simulate_daily_dca,
      simulate_weekly_dca, simAvg, cost_sum, btc_bought_sum, addColumns,
      List.map_map, Function.comp_def]

/-- C5 counterexample: the ranked table's label for the daily strategy at
hour 5 is `Daily 5:00`; no strategy label with a single-digit hour carries
the zero-padded `HH:00` hour the claim requires, so the claimed format
fails on the comparator's results (shown here on the empty table, whose
labels are the same for every input table). -/
theorem label_zero_padding_counterexample :
    ¬ (∀ r ∈ mainResults [], claimedLabelFormat r.Strategy) := by
  intro hall
  have hmem : dailyEntry [] 5 ∈ mainResults [] := dailyEntry_mem [] 5 (by norm_num)
  rcases hall _ hmem with h1 | ⟨h, hh, he⟩ | ⟨d, hd, h, hh, he⟩
  · exact absurd h1 (by decide)
  · have hno : ∀ h ∈ List.range 24, ¬ ("Daily 5:00" = "Daily " ++ hh2 h ++ ":00") := by
      decide
    exact hno h hh he
  · have hno : ∀ d ∈ List.range 7, ∀ h ∈ List.range 24,
        ¬ ("Daily 5:00" = "Weekly " ++ day_order.getD d "" ++ " " ++ hh2 h ++ ":00") := by
      decide
    exact hno d hd h hh he

/-- C5 amended: every label in the comparator's results combines the
weekday name, `Daily`, or `Hourly` with the hour formatted `H:00`, where
the hour is the plain decimal number without zero padding. -/
theorem label_format_amended (data : List Row) (r : StratResult)
    (h : r ∈ mainResults data) : actualLabelFormat r.Strategy := by
  rcases (mem_mainResults data r).mp h with ⟨d, hd, hh, hhh, rfl⟩ | ⟨hh, hhh, rfl⟩ | rfl
  · exact Or.inr (Or.inr ⟨d, List.mem_range.mpr hd, hh, List.mem_range.mpr hhh, rfl⟩)
  · exact Or.inr (Or.inl ⟨hh, List.mem_range.mpr hhh, rfl⟩)
  · exact Or.inl rfl

/-- C5 amended witness: the hourly strategy's label. -/
theorem label_format_amended_witness : actualLabelFormat "Hourly" :=
  label_format_amended [] (hourlyEntry []) (hourlyEntry_mem [])

/-- C2 counterexample: on the 48-hour constant-price series (which spans
only two weekdays) the weekly strategy for Wednesday 00:00 matches zero
rows, so its `avg_price` is the non-finite `none`, not 100; hence not every
one of the 193 strategies yields 100. -/
theorem constant_series_counterexample :
    ¬ (∀ r ∈ mainResults table48, r.Avg_Price = some 100) := by
  intro hall
  have hmem : weeklyEntry table48 2 0 ∈ mainResults table48 :=
    weeklyEntry_mem table48 2 0 (by norm_num) (by norm_num)
  have h100 := hall _ hmem
  have hnone : (weeklyEntry table48 2 0).Avg_Price = none := by
    show simAvg (table48.filter (weeklyPred 2 0)) 100 = none
    have hf : table48.filter (weeklyPred 2 0) = [] := by decide
    rw [hf]
    exact simAvg_nil 100
  rw [hnone] at h100
  exact Option.noConfusion h100

/-- C2 amended: on the 48-hour constant-price-100 series with purchase
amount 100, every strategy whose time bucket is populated — the hourly
strategy, all 24 daily strategies, and the 48 weekly strategies of the two
covered weekdays (Monday and Tuesday, weekdays 0 and 1) — has `avg_price`
exactly 100 and relative deviation exactly 0, while the remaining 120
weekly strategies (weekdays 2–6) match zero rows and have non-finite
`avg_price` and non-finite deviation; the table minimum is exactly 100. -/
theorem constant_series_amended :
    (∀ h ∈ List.range 24, (dailyEntry table48 h).Avg_Price = some 100)
    ∧ (hourlyEntry table48).Avg_Price = some 100
    ∧ (∀ d ∈ List.range 2, ∀ h ∈ List.range 24,
        (weeklyEntry table48 d h).Avg_Price = some 100)
    ∧ (∀ d ∈ List.range 7, 2 ≤ d → ∀ h ∈ List.range 24,
        (weeklyEntry table48 d h).Avg_Price = none)
    ∧ (∀ r ∈ mainResults table48, r.Avg_Price = some 100 ∨ r.Avg_Price = none)
    ∧ seriesMin ((results_df table48).map (fun r => r.Avg_Price)) = some 100
    ∧ (∀ p ∈ rankedTable table48,
        (p.1.Avg_Price = some 100 ∧ p.2 = some 0)
          ∨ (p.1.Avg_Price = none ∧ p.2 = none)) := by
  have hconst : ∀ x ∈ table48, x.Open = 100 := by decide
  have hdaily : ∀ h ∈ List.range 24, (dailyEntry table48 h).Avg_Price = some 100 := by
    have hne : ∀ h ∈ List.range 24, table48.filter (dailyPred h) ≠ [] := by decide
    intro h hh
    show simAvg (table48.filter (dailyPred h)) 100 = some 100
    exact simAvg_const_price_some _ 100 100 (by norm_num) (by norm_num)
      (hne h hh) (fun x hx => hconst x (List.mem_of_mem_filter hx))
  have hweekly100 : ∀ d ∈ List.range 2, ∀ h ∈ List.range 24,
      (weeklyEntry table48 d h).Avg_Price = some 100 := by
    have hne : ∀ d ∈ List.range 2, ∀ h ∈ List.range 24,
        table48.filter (weeklyPred d h) ≠ [] := by decide
    intro d hd h hh
    show simAvg (table48.filter (weeklyPred d h)) 100 = some 100
    exact simAvg_const_price_some _ 100 100 (by norm_num) (by norm_num)
      (hne d hd h hh) (fun x hx => hconst x (List.mem_of_mem_filter hx))
  have hweeklynone : ∀ d ∈ List.range 7, 2 ≤ d → ∀ h ∈ List.range 24,
      (weeklyEntry table48 d h).Avg_Price = none := by
    have hemp : ∀ d ∈ List.range 7, 2 ≤ d → ∀ h ∈ List.range 24,
        table48.filter (weeklyPred d h) = [] := by decide
    intro d hd hd2 h hh
    show simAvg (table48.filter (weeklyPred d h)) 100 = none
    rw [hemp d hd hd2 h hh]
    exact simAvg_nil 100
  have hpart1 : ∀ r ∈ mainResults table48,
      r.Avg_Price = some 100 ∨ r.Avg_Price = none := by
    intro r hr
    rcases mainResults_avg_shape table48 r hr with ⟨ps, hps, hsub⟩
    rw [hps]
    exact simAvg_const_price ps 100 100 (by norm_num) (by norm_num)
      (fun x hx => hconst x (hsub x hx))
  have hne48 : table48 ≠ [] := by decide
  have hpart2 : (hourlyEntry table48).Avg_Price = some 100 := by
    show simAvg (resampleFirst table48) 100 = some 100
    exact simAvg_const_price_some _ 100 100 (by norm_num) (by norm_num)
      (resampleFirst_ne_nil table48 hne48)
      (fun x hx => hconst x (resampleFirst_subset table48 x hx))
  have hperm : List.Perm (results_df table48) (mainResults table48) :=
    results_df_perm table48
  have hpart3 : seriesMin ((results_df table48).map (fun r => r.Avg_Price))
      = some 100 := by
    have hsv : some 100 ∈ (results_df table48).map (fun r => r.Avg_Price) :=
      List.mem_map.mpr
        ⟨hourlyEntry table48, hperm.mem_iff.mpr (hourlyEntry_mem table48), hpart2⟩
    rcases seriesMin_isSome _ 100 hsv with ⟨m, hm⟩
    have hmm := seriesMin_mem _ m hm
    rcases List.mem_map.mp hmm with ⟨rm, hrmm, hrmavg⟩
    rcases hpart1 rm (hperm.mem_iff.mp hrmm) with h100 | hnone
    · rw [hrmavg] at h100
      rw [hm, Option.some_inj.mp h100]
    · rw [hrmavg] at hnone
      exact absurd hnone (by simp)
  refine ⟨hdaily, hpart2, hweekly100, hweeklynone, hpart1, hpart3, ?_⟩
  intro p hp
  have hRT : rankedTable table48 = (results_df table48).map
      (fun r => (r, relDev r.Avg_Price
        (seriesMin ((results_df table48).map (fun r => r.Avg_Price))))) := rfl
  rw [hRT] at hp
  rcases List.mem_map.mp hp with ⟨r, hrdf, rfl⟩
  rcases hpart1 r (hperm.mem_iff.mp hrdf) with h100 | hnone
  · refine Or.inl ⟨h100, ?_⟩
    show relDev r.Avg_Price _ = some 0
    rw [h100, hpart3]
    exact relDev_self 100 (by norm_num)
  · refine Or.inr ⟨hnone, ?_⟩
    show relDev r.Avg_Price _ = none
    rw [hnone]
    exact relDev_none_left _

/-- C2 amended witness: concrete instances — the daily strategy at hour 5
yields exactly 100, and the weekly Wednesday 00:00 strategy (weekday 2,
absent from the 48-hour window) yields the non-finite `none`. -/
theorem constant_series_amended_witness :
    5 ∈ List.range 24 ∧ (dailyEntry table48 5).Avg_Price = some 100
    ∧ 2 ∈ List.range 7 ∧ (2 : ℕ) ≤ 2 ∧ 0 ∈ List.range 24
    ∧ (weeklyEntry table48 2 0).Avg_Price = none :=
  ⟨by decide, constant_series_amended.1 5 (by decide),
   by decide, le_refl 2, by decide,
   constant_series_amended.2.2.2.1 2 (by decide) (le_refl 2) 0 (by decide)⟩

/-- C6: the filtered bar chart first removes every weekly-labelled strategy
from the ranked table (exactly 168 entries fewer, and no weekly label
remains), and only then re-derives the top 30 — which is the whole
25-entry remainder — and recomputes each deviation against the minimum
average price of that remaining set. -/
theorem filtered_bar_chart_excludes_weekly (data : List Row) :
    ((results_df data).filter (fun r => !(strStartsWith r.Strategy "Weekly"))).length + 168
        = (results_df data).length
    ∧ (∀ r ∈ (results_df data).filter (fun r => !(strStartsWith r.Strategy "Weekly")),
        strStartsWith r.Strategy "Weekly" = false)
    ∧ ((results_df data).filter (fun r => !(strStartsWith r.Strategy "Weekly"))).take 30
        = (results_df data).filter (fun r => !(strStartsWith r.Strategy "Weekly"))
    ∧ visualize_filtered_bar_chart (results_df data)
        = ((results_df data).filter (fun r => !(strStartsWith r.Strategy "Weekly"))).map
            (fun r => (r, relDev r.Avg_Price
              (seriesMin (((results_df data).filter
                (fun s => !(strStartsWith s.Strategy "Weekly"))).map
                  (fun s => s.Avg_Price))))) := by
  have hcount : ((results_df data).filter
      (fun r => !(strStartsWith r.Strategy "Weekly"))).length = 25 := by
    rw [← List.countP_eq_length_filter, (results_df_perm data).countP_eq]
    exact mainResults_countP_not_weekly data
  have hlen : (results_df data).length = 193 := by
    rw [(results_df_perm data).length_eq, mainResults_length]
  have htake : ((results_df data).filter
      (fun r => !(strStartsWith r.Strategy "Weekly"))).take 30
        = (results_df data).filter (fun r => !(strStartsWith r.Strategy "Weekly")) :=
    List.take_of_length_le (by rw [hcount]; norm_num)
  refine ⟨by rw [hcount, hlen], ?_, htake, ?_⟩
  · intro r hr
    have hp := List.of_mem_filter hr
    simpa using hp
  · show visualize_bar_chart ((results_df data).filter
      (fun r => !(strStartsWith r.Strategy "Weekly"))) = _
    show (((results_df data).filter
        (fun r => !(strStartsWith r.Strategy "Weekly"))).take 30).map
          (fun r => (r, relDev r.Avg_Price
            (seriesMin ((((results_df data).filter
              (fun s => !(strStartsWith s.Strategy "Weekly"))).take 30).map
                (fun s => s.Avg_Price))))) = _
    rw [htake]

/-- C7: in every ranked comparison table of the comparator over a non-empty
table with positive prices, the first-ranked (minimum-average-price)
strategy's relative deviation is exactly 0. -/
theorem best_rank_zero_deviation (data : List Row) (hne : data ≠ [])
    (hpos : ∀ r ∈ data, 0 < r.Open) :
    ∃ p rest, rankedTable data = p :: rest ∧ p.2 = some 0 := by
  have hrs_ne := resampleFirst_ne_nil data hne
  have hrs_pos : ∀ r ∈ resampleFirst data, 0 < r.Open :=
    fun r hr => hpos r (resampleFirst_subset data r hr)
  rcases simAvg_isSome (resampleFirst data) 100 (by norm_num) hrs_ne hrs_pos with ⟨v, hv⟩
  have hhourly : (hourlyEntry data).Avg_Price = some v := hv
  have hperm : List.Perm (results_df data) (mainResults data) := results_df_perm data
  have hsv : some v ∈ (results_df data).map (fun r => r.Avg_Price) :=
    List.mem_map.mpr
      ⟨hourlyEntry data, hperm.mem_iff.mpr (hourlyEntry_mem data), hhourly⟩
  rcases seriesMin_isSome _ v hsv with ⟨m, hm⟩
  obtain ⟨p, rest, hcons⟩ : ∃ p rest, results_df data = p :: rest := by
    cases hd : results_df data with
    | nil =>
      rw [hd] at hsv
      simp at hsv
    | cons p rest => exact ⟨p, rest, rfl⟩
  have hsorted := results_df_sorted data
  rw [hcons] at hsorted
  have hmmem : some m ∈ (results_df data).map (fun r => r.Avg_Price) :=
    seriesMin_mem _ m hm
  rcases List.mem_map.mp hmmem with ⟨rm, hrm, hrmavg⟩
  have hple : avgLe p rm := by
    rw [hcons] at hrm
    rcases List.mem_cons.mp hrm with hpe | hrm'
    · exact hpe ▸ avgLe_refl p
    · exact List.rel_of_sorted_cons hsorted rm hrm'
  have hpmem : p ∈ results_df data := by
    rw [hcons]
    exact List.mem_cons_self p rest
  cases hpa : p.Avg_Price with
  | none =>
    rw [avgLe, hpa, hrmavg] at hple
    simp [naLeB] at hple
  | some a =>
    have ha_le : a ≤ m := by
      rw [avgLe, hpa, hrmavg] at hple
      simpa [naLeB] using hple
    have hm_le : m ≤ a :=
      seriesMin_le _ m a hm (List.mem_map.mpr ⟨p, hpmem, hpa⟩)
    have ham : a = m := le_antisymm ha_le hm_le
    have hm0 : m ≠ 0 :=
      mainResults_avg_ne_zero data p m (hperm.mem_iff.mp hpmem)
        (by rw [hpa, ham])
    have hRT : rankedTable data = (results_df data).map
        (fun r => (r, relDev r.Avg_Price
          (seriesMin ((results_df data).map (fun r => r.Avg_Price))))) := rfl
    refine ⟨(p, relDev p.Avg_Price
      (seriesMin ((results_df data).map (fun r => r.Avg_Price)))),
      rest.map (fun r => (r, relDev r.Avg_Price
        (seriesMin ((results_df data).map (fun r => r.Avg_Price))))), ?_, ?_⟩
    · rw [hRT, hcons, List.map_cons]
    · show relDev p.Avg_Price
        (seriesMin ((results_df data).map (fun r => r.Avg_Price))) = some 0
      rw [hpa, ham, hm]
      exact relDev_self m hm0

/-- C7 witness: on the 48-hour constant-price table the first-ranked
strategy's relative deviation is 0. -/
theorem best_rank_zero_deviation_witness :
    table48 ≠ [] ∧ (∀ r ∈ table48, 0 < r.Open) ∧
    (∃ p rest, rankedTable table48 = p :: rest ∧ p.2 = some 0) :=
  ⟨by decide, by decide,
   best_rank_zero_deviation table48 (by decide) (by decide)⟩

/-- C10: in the ranked table the sort places every strategy with a
non-finite average price after all finite ones (once a `none` appears,
everything after it is `none`); and as soon as any strategy has a finite
average price, the minimum used for the deviation column is finite and
non-zero, so every finite-price strategy's deviation is well-defined
(finite). -/
theorem non_finite_sorted_last (data : List Row) :
    List.Pairwise (fun a b => a.Avg_Price = none → b.Avg_Price = none)
      (results_df data)
    ∧ ((∃ r ∈ mainResults data, r.Avg_Price ≠ none) →
        ∃ m : ℚ, seriesMin ((results_df data).map (fun r => r.Avg_Price)) = some m
          ∧ m ≠ 0
          ∧ ∀ p ∈ rankedTable data, p.1.Avg_Price ≠ none → p.2 ≠ none) := by
  constructor
  · refine List.Pairwise.imp ?_ (results_df_sorted data)
    intro a b hab hanone
    cases hb : b.Avg_Price with
    | none => rfl
    | some y =>
      rw [avgLe, hanone, hb] at hab
      simp [naLeB] at hab
  · rintro ⟨r0, hr0, hne0⟩
    have hperm : List.Perm (results_df data) (mainResults data) := results_df_perm data
    cases hv : r0.Avg_Price with
    | none => exact absurd hv hne0
    | some v =>
      have hsv : some v ∈ (results_df data).map (fun r => r.Avg_Price) :=
        List.mem_map.mpr ⟨r0, hperm.mem_iff.mpr hr0, hv⟩
      rcases seriesMin_isSome _ v hsv with ⟨m, hm⟩
      have hmm := seriesMin_mem _ m hm
      rcases List.mem_map.mp hmm with ⟨rm, hrmm, hrmavg⟩
      have hm0 : m ≠ 0 :=
        mainResults_avg_ne_zero data rm m (hperm.mem_iff.mp hrmm) hrmavg
      refine ⟨m, hm, hm0, ?_⟩
      intro p hp hpfin
      have hRT : rankedTable data = (results_df data).map
          (fun r => (r, relDev r.Avg_Price
            (seriesMin ((results_df data).map (fun r => r.Avg_Price))))) := rfl
      rw [hRT] at hp
      rcases List.mem_map.mp hp with ⟨r, hrdf, rfl⟩
      cases ha : r.Avg_Price with
      | none => exact absurd ha hpfin
      | some a =>
        dsimp only
        rw [hm]
        simp [relDev, hm0]

/-- C10 witness: the 3-row fixture has a strategy with finite average
price, so the minimum is finite and all finite deviations are defined. -/
theorem non_finite_sorted_last_witness :
    (∃ r ∈ mainResults fixture3, r.Avg_Price ≠ none)
    ∧ (∃ m : ℚ, seriesMin ((results_df fixture3).map (fun r => r.Avg_Price)) = some m
        ∧ m ≠ 0
        ∧ ∀ p ∈ rankedTable fixture3, p.1.Avg_Price ≠ none → p.2 ≠ none) := by
  have hex : ∃ r ∈ mainResults fixture3, r.Avg_Price ≠ none := by
    refine ⟨hourlyEntry fixture3, hourlyEntry_mem fixture3, ?_⟩
    show simAvg (resampleFirst fixture3) 100 ≠ none
    have h1 : resampleFirst fixture3 = fixture3 := by decide
    rw [h1]
    rcases simAvg_isSome fixture3 100 (by norm_num) (by decide) (by decide) with ⟨v, hv⟩
    rw [hv]
    simp
  exact ⟨hex, (non_finite_sorted_last fixture3).2 hex⟩
